import Mathlib

/-!
Verification of the document-management AI core (chunking, embedding
normalization, batch OOM recovery, retrieval filtering, classification
fallback, ingestion orchestration) against its natural-language
specification.  Python sources are shallowly embedded: text is `List Char`,
Python slices / `str.strip` / `str.rfind` / substring tests are modelled
directly, floating-point vectors are real-number (or rational) lists, and
external effects (model forward passes, the database, Redis) are explicit
oracle parameters or threaded state.
-/

/-- Text is modelled as a list of characters (a Python `str`). -/
abbrev Str := List Char

/-- Whitespace characters recognised by Python's `str.strip()` (the subset
that can occur in the texts this code handles). -/
def pyIsSpace (c : Char) : Bool :=
  c = ' ' || c = '\t' || c = '\n' || c = '\r' || c = '\x0b' || c = '\x0c'

/-- Python `str.strip()`: drop leading and trailing whitespace. -/
def pyStrip (s : Str) : Str :=
  ((s.dropWhile pyIsSpace).reverse.dropWhile pyIsSpace).reverse

/-- Python `str.lower()` restricted to the alphabets used by the keyword
classifier: ASCII `A`-`Z` and Cyrillic `А`-`Я` / `Ё`. -/
def pyLower (c : Char) : Char :=
  if 'A' ≤ c ∧ c ≤ 'Z' then Char.ofNat (c.toNat + 32)
  else if 'А' ≤ c ∧ c ≤ 'Я' then Char.ofNat (c.toNat + 32)
  else if c = 'Ё' then 'ё'
  else c

/-- Python `str.lower()` applied charwise. -/
def pyLowerStr (s : Str) : Str := s.map pyLower

/-- Python slice `s[a:b]` for `0 ≤ a ≤ b` (indices past the end are clamped,
as in Python). -/
def pySlice (s : Str) (a b : Nat) : Str := (s.drop a).take (b - a)

/-- Python substring test `sub in hay`. -/
def pyContains (hay sub : Str) : Bool :=
  (List.range (hay.length + 1)).any (fun i => (hay.drop i).take sub.length == sub)

/-- Python `hay.rfind(sub, start, stop)`: the largest index `i` with
`start ≤ i`, `i + len sub ≤ stop` and a match at `i`; `none` when absent. -/
def pyRfind (hay sub : Str) (start stop : Nat) : Option Nat :=
  ((List.range (stop + 1)).filter
    (fun i => start ≤ i && i + sub.length ≤ stop
      && (hay.drop i).take sub.length == sub)).getLast?

theorem pyContains_iff (hay sub : Str) :
    pyContains hay sub = true ↔ ∃ a b, hay = a ++ sub ++ b := by
  unfold pyContains
  rw [List.any_eq_true]
  constructor
  · rintro ⟨i, _, hmatch⟩
    rw [beq_iff_eq] at hmatch
    refine ⟨hay.take i, (hay.drop i).drop sub.length, ?_⟩
    have h2 : hay.drop i = sub ++ (hay.drop i).drop sub.length := by
      conv_lhs => rw [← List.take_append_drop sub.length (hay.drop i)]
      rw [hmatch]
    conv_lhs => rw [← List.take_append_drop i hay, h2]
    simp [List.append_assoc]
  · rintro ⟨a, b, rfl⟩
    refine ⟨a.length, ?_, ?_⟩
    · rw [List.mem_range]
      simp [List.length_append]
      omega
    · rw [beq_iff_eq, List.append_assoc, List.drop_left]
      exact List.take_left ..

theorem pyContains_append (a sub b : Str) :
    pyContains (a ++ sub ++ b) sub = true :=
  (pyContains_iff ..).mpr ⟨a, b, rfl⟩

/-- Substring containment survives `str.lower()` (it is a charwise map). -/
theorem pyContains_lower (hay sub : Str) (h : pyContains hay sub = true)
    (hsub : pyLowerStr sub = sub) :
    pyContains (pyLowerStr hay) sub = true := by
  rcases (pyContains_iff ..).mp h with ⟨a, b, rfl⟩
  refine (pyContains_iff ..).mpr ⟨pyLowerStr a, pyLowerStr b, ?_⟩
  simp [pyLowerStr] at hsub ⊢
  exact hsub

/-! ## Chunker (`DocumentProcessor.chunk_text`, document_processor.py 210-239) -/

/-- One chunk produced by `DocumentProcessor.chunk_text`. -/
structure Chunk where
  text : Str
  start_pos : Nat
  end_pos : Nat
  chunk_id : Nat
deriving DecidableEq

/-- The boundary-adjustment break characters, in the order tried by the
source: paragraph break, line break, then sentence-ending punctuation. -/
def breakChars : List Str := ["\n\n".toList, "\n".toList, ". ".toList, "! ".toList, "? ".toList]

/-- The `for break_char in [...]` loop body of `chunk_text`: the first break
character found by `rfind` inside the window replaces the window end. -/
def findBreakEnd (text : Str) (start stop : Nat) : Nat :=
  match (breakChars.filterMap
    (fun bc => (pyRfind text bc start stop).map (· + bc.length))).head? with
  | some e => e
  | none => stop

/-- The window end computed by one iteration of `chunk_text`'s loop:
`end = start + chunk_size`, moved back to a break character when the window
boundary falls strictly inside the text. -/
def computeEnd (text : Str) (cs start : Nat) : Nat :=
  let end0 := start + cs
  if end0 < text.length then findBreakEnd text start end0 else end0

/-- The next window start chosen by `chunk_text`:
`start = max(start + 1, end - overlap)`. -/
def nextStart (text : Str) (cs ov start : Nat) : Nat :=
  max (start + 1) (computeEnd text cs start - ov)

/-- The `while start < len(text)` loop of `chunk_text`. -/
def chunkLoop (text : Str) (cs ov : Nat) (start : Nat) (acc : List Chunk) :
    List Chunk :=
  if h : start < text.length then
    let e := computeEnd text cs start
    let ctext := pyStrip (pySlice text start e)
    let acc' := if ctext = [] then acc else acc ++ [⟨ctext, start, e, acc.length⟩]
    chunkLoop text cs ov (nextStart text cs ov start) acc'
  else acc
termination_by text.length - start
decreasing_by
  simp only [nextStart]
  omega

/-- `DocumentProcessor.chunk_text` (chunk size and overlap are the
constructor parameters, default 500 / 100). -/
def chunk_text (cs ov : Nat) (text : Str) : List Chunk :=
  if pyStrip text = [] then [] else chunkLoop text cs ov 0 []

/-- Fuel-bounded variant of the `chunk_text` loop, used to state that the
loop terminates within `len(text)` iterations: `none` means the iteration
budget was exhausted. -/
def chunkLoopF (text : Str) (cs ov : Nat) :
    Nat → Nat → List Chunk → Option (List Chunk)
  | 0, _, _ => none
  | fuel + 1, start, acc =>
    if start < text.length then
      let e := computeEnd text cs start
      let ctext := pyStrip (pySlice text start e)
      let acc' := if ctext = [] then acc else acc ++ [⟨ctext, start, e, acc.length⟩]
      chunkLoopF text cs ov fuel (nextStart text cs ov start) acc'
    else some acc

/-- Fuel-bounded `chunk_text`. -/
def chunk_textF (cs ov : Nat) (text : Str) : Option (List Chunk) :=
  if pyStrip text = [] then some [] else chunkLoopF text cs ov (text.length + 1) 0 []

/-- Modelled from the spec: "chunks whose concatenation with the overlap
removed reconstructs the original text" — each later chunk contributes its
text minus the prefix overlapping the previous chunk's window. -/
def reconSuffix : Nat → List Chunk → Str
  | _, [] => []
  | prevEnd, c :: rest => (c.text.drop (prevEnd - c.start_pos)) ++ reconSuffix c.end_pos rest

/-- Modelled from the spec: concatenation of the chunk texts with the
overlap removed. -/
def reconstructWithOverlapRemoved : List Chunk → Str
  | [] => []
  | c :: rest => c.text ++ reconSuffix c.end_pos rest

/-! ## Chunker properties -/

/-- The next window start strictly exceeds the previous one
(`max(start + 1, end - overlap)`), for every chunk size and overlap. -/
theorem nextStart_gt (text : Str) (cs ov start : Nat) :
    start < nextStart text cs ov start := by
  unfold nextStart
  omega

/-- The loop of `chunk_text` completes within any iteration budget that
exceeds the number of remaining characters. -/
theorem chunkLoopF_correct (text : Str) (cs ov : Nat) :
    ∀ fuel start acc, text.length - start < fuel →
      chunkLoopF text cs ov fuel start acc = some (chunkLoop text cs ov start acc) := by
  intro fuel
  induction fuel with
  | zero => intro start acc h; omega
  | succ n ih =>
    intro start acc h
    rw [chunkLoop, chunkLoopF]
    by_cases hs : start < text.length
    · simp only [hs, if_true, dif_pos]
      exact ih _ _ (by have := nextStart_gt text cs ov start; omega)
    · simp [hs]

/-- Invariants of the `chunk_text` loop: strictly increasing start offsets,
chunk ids numbered `0, 1, 2, ...` in production order, and every chunk text
equal to the whitespace-stripped window slice. -/
theorem chunkLoop_props (text : Str) (cs ov start : Nat) (acc : List Chunk)
    (h1 : ∀ c ∈ acc, c.start_pos < start)
    (h2 : List.Pairwise (fun a b => a.start_pos < b.start_pos) acc)
    (h3 : acc.map Chunk.chunk_id = List.range acc.length)
    (h4 : ∀ c ∈ acc, c.text = pyStrip (pySlice text c.start_pos c.end_pos)) :
    List.Pairwise (fun a b => a.start_pos < b.start_pos)
        (chunkLoop text cs ov start acc) ∧
      (chunkLoop text cs ov start acc).map Chunk.chunk_id =
        List.range (chunkLoop text cs ov start acc).length ∧
      ∀ c ∈ chunkLoop text cs ov start acc,
        c.text = pyStrip (pySlice text c.start_pos c.end_pos) := by
  rw [chunkLoop]
  by_cases hs : start < text.length
  · simp only [dif_pos hs]
    set e := computeEnd text cs start with he
    by_cases hc : pyStrip (pySlice text start e) = []
    · simp only [hc, if_pos rfl]
      exact chunkLoop_props text cs ov (nextStart text cs ov start) acc
        (fun c hcmem => lt_trans (h1 c hcmem) (nextStart_gt text cs ov start))
        h2 h3 h4
    · simp only [if_neg hc]
      refine chunkLoop_props text cs ov (nextStart text cs ov start) _ ?_ ?_ ?_ ?_
      · intro c hcmem
        rcases List.mem_append.mp hcmem with hmem | hmem
        · exact lt_trans (h1 c hmem) (nextStart_gt text cs ov start)
        · rw [List.mem_singleton] at hmem
          subst hmem
          exact nextStart_gt text cs ov start
      · rw [List.pairwise_append]
        refine ⟨h2, List.pairwise_singleton .., ?_⟩
        intro a hamem b hbmem
        rw [List.mem_singleton] at hbmem
        subst hbmem
        exact h1 a hamem
      · rw [List.map_append, h3, List.length_append]
        simp [List.range_succ]
      · intro c hcmem
        rcases List.mem_append.mp hcmem with hmem | hmem
        · exact h4 c hmem
        · rw [List.mem_singleton] at hmem
          subst hmem
          rfl
  · simp only [dif_neg hs]
    exact ⟨h2, h3, h4⟩
termination_by text.length - start
decreasing_by
  all_goals
    have := nextStart_gt text cs ov start
    omega

/-- Whitespace-only text strips to the empty string. -/
theorem pyStrip_of_all_space (text : Str) (h : text.all pyIsSpace = true) :
    pyStrip text = [] := by
  unfold pyStrip
  rw [List.all_eq_true] at h
  have hd : text.dropWhile pyIsSpace = [] := by
    rw [List.dropWhile_eq_nil_iff]
    exact h
  simp [hd]

/-- C6: `chunk_text` makes monotonic progress — the next window start
`max(previous_start + 1, cut_end - overlap)` strictly exceeds the previous
start for every chunk size and overlap (even `overlap ≥ chunk_size`), and
consequently the loop terminates on every text, within `len(text) + 1`
iterations. -/
theorem chunk_text_progress_and_terminates :
    (∀ (text : Str) (cs ov start : Nat), start < nextStart text cs ov start) ∧
    (∀ (cs ov : Nat) (text : Str), chunk_textF cs ov text = some (chunk_text cs ov text)) := by
  refine ⟨nextStart_gt, ?_⟩
  intro cs ov text
  unfold chunk_textF chunk_text
  by_cases h : pyStrip text = []
  · simp [h]
  · simp only [h, if_false]
    exact chunkLoopF_correct text cs ov (text.length + 1) 0 [] (by omega)

/-- C5 (amended): every chunk's text is the whitespace-stripped window
slice `strip(text[start:end])` (so reconstruction holds only up to the
stripped whitespace), start offsets are strictly increasing, chunk ids are
`0, 1, 2, ...` in production order, and empty or whitespace-only input
yields zero chunks. -/
theorem chunk_text_stripped_windows (cs ov : Nat) (text : Str) :
    List.Pairwise (fun a b => a.start_pos < b.start_pos) (chunk_text cs ov text) ∧
      (chunk_text cs ov text).map Chunk.chunk_id =
        List.range (chunk_text cs ov text).length ∧
      (∀ c ∈ chunk_text cs ov text,
        c.text = pyStrip (pySlice text c.start_pos c.end_pos)) ∧
      (text.all pyIsSpace = true → chunk_text cs ov text = []) := by
  unfold chunk_text
  by_cases h : pyStrip text = []
  · simp [h]
  · simp only [h, if_false]
    have hp := chunkLoop_props text cs ov 0 [] (by simp) (by simp) (by simp) (by simp)
    exact ⟨hp.1, hp.2.1, hp.2.2, fun hall => absurd (pyStrip_of_all_space text hall) h⟩

/-- Witness for C5 (amended): whitespace-only input produces zero chunks. -/
theorem chunk_text_stripped_windows_witness :
    chunk_text 500 100 "  ".toList = [] :=
  (chunk_text_stripped_windows 500 100 "  ".toList).2.2.2 (by decide)

/-- C5 counterexample: on the input `"a "`, the single produced chunk has
the stripped text `"a"`, so the concatenation-with-overlap-removed of the
produced chunks is `"a"`, which does not reconstruct the original text
`"a "`. -/
theorem chunk_reconstruction_counterexample :
    reconstructWithOverlapRemoved (chunk_text 500 100 "a ".toList) ≠ "a ".toList := by
  have h1 : chunkLoopF ("a ".toList) 500 100 3 0 [] =
      some [⟨"a".toList, 0, 500, 0⟩] := by decide
  have hc := chunkLoopF_correct ("a ".toList) 500 100 3 0 [] (by decide)
  have h2 : chunk_text 500 100 "a ".toList = [⟨"a".toList, 0, 500, 0⟩] := by
    unfold chunk_text
    rw [if_neg (by decide)]
    exact Option.some.inj (hc.symm.trans h1)
  rw [h2]
  decide

/-! ## Keyword fallback classifier (`QwenService._fallback_classify`,
qwen_service.py 682-724) -/

/-- Does any keyword occur in the (lowercased) text? -/
def anyKeyword (tl : Str) (kws : List Str) : Bool :=
  kws.any (fun k => pyContains tl k)

/-- Keywords for document type `contract`. -/
def kwContract : List Str := ["договор".toList, "контракт".toList, "соглашение".toList]

/-- Keywords for document type `invoice`. -/
def kwInvoice : List Str := ["счет".toList, "invoice".toList, "счет-фактура".toList]

/-- Keywords for document type `act`. -/
def kwAct : List Str := ["акт".toList, "приемки".toList, "выполнения".toList]

/-- Keywords for document type `order`. -/
def kwOrder : List Str := ["приказ".toList, "распоряжение".toList, "order".toList]

/-- Keywords for document type `email`. -/
def kwEmail : List Str := ["письмо".toList, "email".toList, "сообщение".toList]

/-- Keywords raising the priority to `high`. -/
def kwHigh : List Str := ["срочно".toList, "urgent".toList, "важно".toList, "important".toList]

/-- Keywords lowering the priority to `low`. -/
def kwLow : List Str := ["низкий".toList, "low".toList, "неважно".toList]

/-- The fallback document-type chain (default `scan`). -/
def fallbackDocType (tl : Str) : Str :=
  if anyKeyword tl kwContract then "contract".toList
  else if anyKeyword tl kwInvoice then "invoice".toList
  else if anyKeyword tl kwAct then "act".toList
  else if anyKeyword tl kwOrder then "order".toList
  else if anyKeyword tl kwEmail then "email".toList
  else "scan".toList

/-- The fallback priority chain (default `medium`). -/
def fallbackPriority (tl : Str) : Str :=
  if anyKeyword tl kwHigh then "high".toList
  else if anyKeyword tl kwLow then "low".toList
  else "medium".toList

/-- The last index at which a character occurs in a string. -/
def lastIdxOf (c : Char) (s : Str) : Option Nat :=
  ((List.range s.length).filter (fun i => s.get? i == some c)).getLast?

/-- The final path component (`pathlib.PurePath.name`). -/
def afterLastSlash (s : Str) : Str :=
  match lastIdxOf '/' s with
  | some i => s.drop (i + 1)
  | none => s

/-- Lowercased `pathlib.Path(filename).suffix.lower()`: the extension with
its dot, empty when the name has no inner dot. -/
def pathSuffix (filename : Str) : Str :=
  let nm := afterLastSlash filename
  match lastIdxOf '.' nm with
  | some i => if 0 < i ∧ i + 1 < nm.length then pyLowerStr (nm.drop i) else []
  | none => []

/-- The fallback tags: the file extension without its dot (when present),
then the inferred document type (when it is not the default `scan`). -/
def fallbackTags (doctype filename : Str) : List Str :=
  let tags0 :=
    if filename ≠ [] then
      (let ext := pathSuffix filename
       if ext ≠ [] then [ext.filter (fun c => c ≠ '.')] else [])
    else []
  if doctype ≠ "scan".toList then tags0 ++ [doctype] else tags0

/-- The structured classification result (`ClassificationResult`). -/
structure Classification where
  type : Str
  counterparty_name : Option Str
  date : Option Str
  priority : Str
  description : Str
  tags : List Str
deriving DecidableEq

/-- `QwenService._fallback_classify`: deterministic keyword-based
classification of `text.lower()`, tagging with the file extension and the
inferred type. -/
def fallback_classify (text filename : Str) : Classification :=
  let tl := pyLowerStr text
  let doctype := fallbackDocType tl
  { type := doctype
    counterparty_name := none
    date := none
    priority := fallbackPriority tl
    description := "Документ: ".toList ++
      (if filename = [] then "без названия".toList else filename)
    tags := fallbackTags doctype filename }

/-! ## Classification entry point (`QwenService.classify_metrics_from_rag`,
qwen_service.py 254-377) -/

/-- One model generation, seen from the caller: how long it runs and either
the post-processed response text or a raised exception (message). -/
structure Generation where
  duration : ℚ
  result : Except Str Str

/-- Outcome of the regex-JSON scan and `json.loads` on the model response
(lines 333-358), abstracted as an oracle: a parsed result, a located JSON
object that fails to decode, or no JSON object located at all. -/
inductive ParseOutcome where
  | parsed (c : Classification)
  | decodeError
  | noMatch

/-- The metrics dictionary handed over by the RAG service (the fields read
by `classify_metrics_from_rag`). -/
structure Metrics where
  text : Str
  filename : Str
  chunks_count : Nat
  text_length : Nat

/-- The reverse-metrics dictionary returned to the RAG service; `none`
models a key absent from the returned dict (the generic exception path
omits `chunks_count`/`text_length`). -/
structure ReverseMetrics where
  classification : Classification
  processed : Bool
  error : Option Str
  chunks_count : Option Nat
  text_length : Option Nat
deriving DecidableEq

/-- `QwenService.classify_metrics_from_rag`: model loading failure
(`loadErr`), the 60-second `asyncio.wait_for` timeout, and a raised
generation exception all substitute the keyword fallback result; a
successful generation goes through the JSON scan, whose no-match branch
also falls back (with emptied tags). -/
def classify_metrics_from_rag (loadErr : Option Str) (gen : Generation)
    (parse : Str → ParseOutcome) (m : Metrics) : ReverseMetrics :=
  match loadErr with
  | some e =>
    { classification := fallback_classify m.text m.filename
      processed := false
      error := some ("Model not available: ".toList ++ e)
      chunks_count := some m.chunks_count
      text_length := some m.text_length }
  | none =>
    if (60 : ℚ) < gen.duration then
      { classification := fallback_classify m.text m.filename
        processed := false
        error := some ("Generation timeout".toList)
        chunks_count := some m.chunks_count
        text_length := some m.text_length }
    else
      match gen.result with
      | .error e =>
        { classification := fallback_classify m.text m.filename
          processed := false
          error := some e
          chunks_count := none
          text_length := none }
      | .ok response =>
        { classification :=
            match parse response with
            | .parsed c => c
            | .decodeError => fallback_classify m.text m.filename
            | .noMatch => { fallback_classify m.text m.filename with tags := [] }
          processed := true
          error := none
          chunks_count := some m.chunks_count
          text_length := some m.text_length }

/-- The fallback document type is always one of the six known types. -/
theorem fallbackDocType_mem (tl : Str) :
    fallbackDocType tl ∈
      ["contract".toList, "invoice".toList, "act".toList, "order".toList,
        "email".toList, "scan".toList] := by
  unfold fallbackDocType
  repeat' split
  all_goals simp

/-- The fallback priority is always one of high / medium / low. -/
theorem fallbackPriority_mem (tl : Str) :
    fallbackPriority tl ∈ ["high".toList, "medium".toList, "low".toList] := by
  unfold fallbackPriority
  repeat' split
  all_goals simp

/-- C1: whenever the model is unavailable (load failure, generation
timeout, or a generation exception), classification returns exactly the
keyword fallback result; the fallback result always has a known document
type and a priority in high / medium / low; and any text containing both
"договор" and "срочно" is classified `contract` with priority `high`. -/
theorem classify_fallback_shape (m : Metrics) (loadErr : Option Str)
    (gen : Generation) (parse : Str → ParseOutcome) :
    ((loadErr ≠ none ∨ (60 : ℚ) < gen.duration ∨ ∃ e, gen.result = .error e) →
      (classify_metrics_from_rag loadErr gen parse m).classification =
        fallback_classify m.text m.filename) ∧
      (fallback_classify m.text m.filename).type ∈
        ["contract".toList, "invoice".toList, "act".toList, "order".toList,
          "email".toList, "scan".toList] ∧
      (fallback_classify m.text m.filename).priority ∈
        ["high".toList, "medium".toList, "low".toList] ∧
      (pyContains m.text ("договор".toList) = true ∧
          pyContains m.text ("срочно".toList) = true →
        (fallback_classify m.text m.filename).type = "contract".toList ∧
          (fallback_classify m.text m.filename).priority = "high".toList) := by
  refine ⟨?_, fallbackDocType_mem _, fallbackPriority_mem _, ?_⟩
  · intro h
    cases loadErr with
    | some e => rfl
    | none =>
      by_cases ht : (60 : ℚ) < gen.duration
      · simp [classify_metrics_from_rag, ht]
      · rcases h with h | h | ⟨e, he⟩
        · exact absurd rfl h
        · exact absurd h ht
        · simp [classify_metrics_from_rag, ht, he]
  · rintro ⟨hdog, hsro⟩
    have hdog' : pyContains (pyLowerStr m.text) ("договор".toList) = true :=
      pyContains_lower _ _ hdog (by decide)
    have hsro' : pyContains (pyLowerStr m.text) ("срочно".toList) = true :=
      pyContains_lower _ _ hsro (by decide)
    have hc : anyKeyword (pyLowerStr m.text) kwContract = true := by
      unfold anyKeyword
      rw [List.any_eq_true]
      exact ⟨_, by simp [kwContract], hdog'⟩
    have hh : anyKeyword (pyLowerStr m.text) kwHigh = true := by
      unfold anyKeyword
      rw [List.any_eq_true]
      exact ⟨_, by simp [kwHigh], hsro'⟩
    constructor
    · show fallbackDocType (pyLowerStr m.text) = "contract".toList
      unfold fallbackDocType
      rw [if_pos hc]
    · show fallbackPriority (pyLowerStr m.text) = "high".toList
      unfold fallbackPriority
      rw [if_pos hh]

/-- Witness for C1: a failed model load on a text containing "договор" and
"срочно" yields the fallback classification `contract` / `high`. -/
theorem classify_fallback_shape_witness :
    (classify_metrics_from_rag (some ("boom".toList)) ⟨0, .ok []⟩
        (fun _ => .noMatch) ⟨"договор срочно".toList, "a.txt".toList, 3, 14⟩).classification =
      fallback_classify ("договор срочно".toList) ("a.txt".toList) ∧
    (fallback_classify ("договор срочно".toList) ("a.txt".toList)).type = "contract".toList ∧
    (fallback_classify ("договор срочно".toList) ("a.txt".toList)).priority = "high".toList := by
  have h := classify_fallback_shape ⟨"договор срочно".toList, "a.txt".toList, 3, 14⟩
    (some ("boom".toList)) ⟨0, .ok []⟩ (fun _ => .noMatch)
  exact ⟨h.1 (Or.inl (by simp)), h.2.2.2 ⟨by decide, by decide⟩⟩

/-! ## Embedding engine (`RAGService.generate_embedding` /
`generate_embeddings_batch`, rag_service.py 39-101 and 153-289).  The
tokenizer and the model forward pass are outside the program text proper
(neural network weights); they enter the embedding as `forward` oracles
returning pooled hidden-state vectors.  Vector arithmetic is over ℝ. -/

/-- Squared L2 norm of a vector. -/
def l2normSq (v : List ℝ) : ℝ := (v.map (fun x => x * x)).sum

/-- L2 norm (`np.linalg.norm`). -/
noncomputable def l2norm (v : List ℝ) : ℝ := Real.sqrt (l2normSq v)

/-- The normalization step shared by `generate_embedding` (lines 92-97) and
`generate_embeddings_batch` (lines 277-283): divide by the norm only when
the norm is positive; the all-zero vector is returned untouched. -/
noncomputable def normalizeEmbedding (v : List ℝ) : List ℝ :=
  if 0 < l2norm v then v.map (fun x => x / l2norm v) else v

theorem l2normSq_nonneg (v : List ℝ) : 0 ≤ l2normSq v := by
  unfold l2normSq
  induction v with
  | nil => simp
  | cons x xs ih =>
    rw [List.map_cons, List.sum_cons]
    exact add_nonneg (mul_self_nonneg x) ih

theorem l2normSq_pos (v : List ℝ) (h : ∃ x ∈ v, x ≠ 0) : 0 < l2normSq v := by
  rcases h with ⟨x, hmem, hx⟩
  induction v with
  | nil => cases hmem
  | cons y ys ih =>
    rw [List.mem_cons] at hmem
    unfold l2normSq
    rw [List.map_cons, List.sum_cons]
    rcases hmem with rfl | hmem
    · have h1 : 0 < x * x := mul_self_pos.mpr hx
      have h2 : 0 ≤ l2normSq ys := l2normSq_nonneg ys
      unfold l2normSq at h2
      linarith
    · have h1 : 0 < l2normSq ys := ih hmem
      have h2 : 0 ≤ y * y := mul_self_nonneg y
      unfold l2normSq at h1
      linarith

theorem l2normSq_zero (v : List ℝ) (h : ∀ x ∈ v, x = 0) : l2normSq v = 0 := by
  unfold l2normSq
  induction v with
  | nil => simp
  | cons y ys ih =>
    rw [List.map_cons, List.sum_cons]
    rw [h y (List.mem_cons_self ..)]
    rw [ih (fun x hx => h x (List.mem_cons_of_mem _ hx))]
    ring

theorem l2normSq_map_div (v : List ℝ) (c : ℝ) :
    l2normSq (v.map (fun x => x / c)) = l2normSq v / (c * c) := by
  unfold l2normSq
  induction v with
  | nil => simp
  | cons y ys ih =>
    rw [List.map_cons, List.map_cons, List.sum_cons, List.map_cons, List.sum_cons]
    rw [ih, add_div]
    congr 1
    rw [div_mul_div_comm]

/-- Torch device of the model (`cuda` / `mps` / `cpu`). -/
inductive PyDevice where
  | cpu
  | cuda
  | mps
deriving DecidableEq

/-- The device-relocation skeleton of `generate_embedding` (lines 70-97):
record the original device, move the model to CPU for the forward pass,
and restore the original device in the `finally` block whether the forward
pass returns a pooled vector or raises; a returned vector is then
L2-normalized.  Generic in the vector payload `Vec`, with the
normalization step passed in. -/
def generate_embedding_run {Vec : Type} (norm : Vec → Vec) (d0 : PyDevice)
    (forward : Except Str Vec) : PyDevice × Except Str Vec :=
  let original := d0
  match forward with
  | .error e => (original, .error e)
  | .ok pooled => (original, .ok (norm pooled))

/-- `RAGService.generate_embedding` with the real L2 normalization. -/
noncomputable def generate_embedding (d0 : PyDevice)
    (forward : Except Str (List ℝ)) : PyDevice × Except Str (List ℝ) :=
  generate_embedding_run normalizeEmbedding d0 forward

/-- Split a list into consecutive batches of `bs` elements
(`texts[i:i + batch_size]` for `i in range(0, len(texts), batch_size)`),
with an iteration budget that suffices for every `bs ≥ 1`. -/
def chunksOfAux {α : Type} : Nat → Nat → List α → List (List α)
  | 0, _, _ => []
  | _ + 1, _, [] => []
  | fuel + 1, bs, l => l.take bs :: chunksOfAux fuel bs (l.drop bs)

/-- Batches of size `bs` covering `l` (meaningful for `bs ≥ 1`). -/
def chunksOf {α : Type} (bs : Nat) (l : List α) : List (List α) :=
  chunksOfAux (l.length + 1) bs l

/-- The non-CUDA batch loop of `generate_embeddings_batch`
(lines 253-283): each batch reads the current model device, moves the
model to CPU, runs the forward pass, restores the device in the `finally`
block, and on success appends the normalized embeddings; a raised forward
exception propagates (after the restore) and aborts the loop. -/
def batchLoopCpu {Vec : Type} (norm : Vec → Vec)
    (forward : List Str → Except Str (List Vec)) :
    PyDevice → List (List Str) → List Vec → PyDevice × Except Str (List Vec)
  | dev, [], acc => (dev, .ok acc)
  | dev, b :: rest, acc =>
    let original := dev
    match forward b with
    | .error e => (original, .error e)
    | .ok pooled => batchLoopCpu norm forward original rest (acc ++ pooled.map norm)

/-- `RAGService.generate_embeddings_batch` on a non-CUDA device. -/
def generate_embeddings_batch_cpu {Vec : Type} (norm : Vec → Vec)
    (forward : List Str → Except Str (List Vec)) (dev : PyDevice)
    (texts : List Str) (bs : Nat) : PyDevice × Except Str (List Vec) :=
  batchLoopCpu norm forward dev (chunksOf bs texts) []

theorem batchLoopCpu_dev {Vec : Type} (norm : Vec → Vec)
    (forward : List Str → Except Str (List Vec)) :
    ∀ (batches : List (List Str)) (dev : PyDevice) (acc : List Vec),
      (batchLoopCpu norm forward dev batches acc).1 = dev := by
  intro batches
  induction batches with
  | nil => intro dev acc; rfl
  | cons b rest ih =>
    intro dev acc
    unfold batchLoopCpu
    cases forward b with
    | error e => rfl
    | ok pooled => exact ih dev _

/-- C9: the CPU relocation around embedding forward passes is
exception-safe — after any call to `generate_embedding` (which always
relocates) or to the non-CUDA batch path of `generate_embeddings_batch`,
the model is back on its original device, whether the forward passes
returned or raised.  (The CUDA batch path never moves the model.) -/
theorem embedding_device_restored {Vec : Type} (norm : Vec → Vec)
    (d0 : PyDevice) (fwd : Except Str Vec)
    (forwardB : List Str → Except Str (List Vec)) (texts : List Str) (bs : Nat) :
    (generate_embedding_run norm d0 fwd).1 = d0 ∧
      (generate_embeddings_batch_cpu norm forwardB d0 texts bs).1 = d0 := by
  constructor
  · cases fwd with
    | error e => rfl
    | ok pooled => rfl
  · exact batchLoopCpu_dev norm forwardB (chunksOf bs texts) d0 []

theorem batchLoopCpu_ok_mem {Vec : Type} (norm : Vec → Vec)
    (forward : List Str → Except Str (List Vec)) :
    ∀ (batches : List (List Str)) (dev : PyDevice) (acc out : List Vec),
      (batchLoopCpu norm forward dev batches acc).2 = .ok out →
      ∀ w ∈ out, w ∈ acc ∨ ∃ p, w = norm p := by
  intro batches
  induction batches with
  | nil =>
    intro dev acc out hout w hw
    exact Or.inl (by cases hout; exact hw)
  | cons b rest ih =>
    intro dev acc out hout w hw
    unfold batchLoopCpu at hout
    cases hfw : forward b with
    | error e => rw [hfw] at hout; cases hout
    | ok pooled =>
      rw [hfw] at hout
      rcases ih dev _ out hout w hw with hmem | hp
      · rcases List.mem_append.mp hmem with hmem | hmem
        · exact Or.inl hmem
        · rcases List.mem_map.mp hmem with ⟨p, -, hpw⟩
          exact Or.inr ⟨p, hpw.symm⟩
      · exact Or.inr hp

/-! ## CUDA batch path with out-of-memory recovery
(`generate_embeddings_batch`, rag_service.py 210-252 and 277-285).  A
forward-pass oracle returns `none` on `torch.cuda.OutOfMemoryError`.  The
call returns a trace of attempts `(batch_size, oom?)` — an `oom? = true`
entry records `torch.cuda.empty_cache()` followed by the recursive retry
at `max(1, batch_size // 2)` — together with the result; the recursion
depth models Python's recursion limit, whose exhaustion is the
`RecursionError` that aborts the whole call. -/

/-- Errors of the CUDA batch path. -/
inductive BatchErr where
  | recursionLimit
  | valueError
deriving DecidableEq

deriving instance DecidableEq for Except

/-- The per-batch loop on CUDA: the whole loop yields `none` as soon as one
batch forward pass hits OOM (partial results are discarded by the
recursive retry); otherwise normalized embeddings accumulate in order. -/
def batchLoopCuda {Vec : Type} (norm : Vec → Vec)
    (forward : List Str → Option (List Vec)) :
    List (List Str) → List Vec → Option (List Vec)
  | [], acc => some acc
  | b :: rest, acc =>
    match forward b with
    | none => none
    | some pooled => batchLoopCuda norm forward rest (acc ++ pooled.map norm)

/-- `generate_embeddings_batch` on CUDA: run all batches; on OOM clear the
cache and retry the whole text list at `max(1, bs // 2)`. -/
def generate_embeddings_batch_cuda {Vec : Type} (norm : Vec → Vec)
    (forward : List Str → Option (List Vec)) :
    Nat → List Str → Nat → List (Nat × Bool) × Except BatchErr (List Vec)
  | 0, _, _ => ([], .error .recursionLimit)
  | depth + 1, texts, bs =>
    if bs = 0 then ([], .error .valueError)
    else
      match batchLoopCuda norm forward (chunksOf bs texts) [] with
      | some embs => ([(bs, false)], .ok embs)
      | none =>
        let r := generate_embeddings_batch_cuda norm forward depth texts (max 1 (bs / 2))
        ((bs, true) :: r.1, r.2)

theorem chunksOf_ne_nil {α : Type} (bs : Nat) (l : List α) (h : l ≠ []) :
    chunksOf bs l ≠ [] := by
  unfold chunksOf
  cases l with
  | nil => exact absurd rfl h
  | cons x xs => simp [chunksOfAux]

theorem batchLoopCuda_all_none {Vec : Type} (norm : Vec → Vec)
    (forward : List Str → Option (List Vec))
    (hall : ∀ b, forward b = none) :
    ∀ (batches : List (List Str)) (acc : List Vec), batches ≠ [] →
      batchLoopCuda norm forward batches acc = none := by
  intro batches acc hne
  cases batches with
  | nil => exact absurd rfl hne
  | cons b rest =>
    unfold batchLoopCuda
    rw [hall b]

/-- The eight-text scenario: the forward pass OOMs on every batch of two
or more texts and succeeds on singleton batches. -/
def scenarioForward : List Str → Option (List (List ℚ)) :=
  fun b => if 2 ≤ b.length then none else some (b.map (fun _ => [1]))

/-- Eight texts for the retry-sequence scenario. -/
def eightTexts : List Str :=
  ["a".toList, "b".toList, "c".toList, "d".toList,
    "e".toList, "f".toList, "g".toList, "h".toList]

/-- C3 (amended): on an out-of-memory signal the engine frees the cached
device memory and retries the whole text list at half the batch size
(minimum 1) — for an initial batch size of 8 with OOM persisting above
singleton batches, the attempt sequence is exactly 8, 4, 2, 1 with the
final attempt succeeding — but an item that still fails at batch size 1
makes the call retry at size 1 until the recursion limit, a fatal error
for the whole call rather than for that item only. -/
theorem batch_oom_halving_retry :
    (∀ {Vec : Type} (norm : Vec → Vec) (forward : List Str → Option (List Vec))
        (depth : Nat) (texts : List Str) (bs : Nat), bs ≠ 0 →
      batchLoopCuda norm forward (chunksOf bs texts) [] = none →
      generate_embeddings_batch_cuda norm forward (depth + 1) texts bs =
        ((bs, true) ::
            (generate_embeddings_batch_cuda norm forward depth texts (max 1 (bs / 2))).1,
          (generate_embeddings_batch_cuda norm forward depth texts (max 1 (bs / 2))).2)) ∧
      (∀ {Vec : Type} (norm : Vec → Vec) (forward : List Str → Option (List Vec))
          (depth : Nat) (texts : List Str) (bs : Nat),
        (∀ b, forward b = none) → texts ≠ [] → bs ≠ 0 →
        (generate_embeddings_batch_cuda norm forward depth texts bs).2 =
          .error .recursionLimit) ∧
      generate_embeddings_batch_cuda (fun v => v) scenarioForward 20 eightTexts 8 =
        ([(8, true), (4, true), (2, true), (1, false)],
          .ok [[1], [1], [1], [1], [1], [1], [1], [1]]) := by
  refine ⟨?_, ?_, by decide⟩
  · intro Vec norm forward depth texts bs hbs hnone
    conv_lhs => unfold generate_embeddings_batch_cuda
    rw [if_neg hbs, hnone]
  · intro Vec norm forward depth
    induction depth with
    | zero => intro texts bs hall hne hbs; rfl
    | succ n ih =>
      intro texts bs hall hne hbs
      unfold generate_embeddings_batch_cuda
      rw [if_neg hbs,
        batchLoopCuda_all_none norm forward hall (chunksOf bs texts) []
          (chunksOf_ne_nil bs texts hne)]
      exact ih texts (max 1 (bs / 2)) hall hne (by omega)

/-- Witness for C3 (amended): with a forward pass that always OOMs, a
batch-size-8 call over one text exhausts the recursion limit and fails as
a whole. -/
theorem batch_oom_halving_retry_witness :
    (generate_embeddings_batch_cuda (fun v : List ℚ => v) (fun _ => none)
        5 ["a".toList] 8).2 = .error .recursionLimit :=
  batch_oom_halving_retry.2.1 (fun v : List ℚ => v) (fun _ => none) 5
    ["a".toList] 8 (fun _ => rfl) (by simp) (by omega)

/-- C3 counterexample: with two texts of which the second always OOMs even
in a singleton batch, the whole call fails with the recursion limit — the
first text gets no embedding either — although the first text alone
embeds fine; the failure is fatal to the call, not to that item only. -/
theorem batch_oom_not_per_item_counterexample :
    (generate_embeddings_batch_cuda (fun v : List ℚ => v)
        (fun b => if ("bb".toList) ∈ b then none
          else some (b.map (fun _ => [1])))
        20 ["aa".toList, "bb".toList] 8).2 = .error .recursionLimit ∧
      (generate_embeddings_batch_cuda (fun v : List ℚ => v)
          (fun b => if ("bb".toList) ∈ b then none
            else some (b.map (fun _ => [1])))
          20 ["aa".toList] 8).2 = .ok [[1]] := by
  constructor
  · decide
  · decide

theorem batchLoopCuda_ok_mem {Vec : Type} (norm : Vec → Vec)
    (forward : List Str → Option (List Vec)) :
    ∀ (batches : List (List Str)) (acc out : List Vec),
      batchLoopCuda norm forward batches acc = some out →
      ∀ w ∈ out, w ∈ acc ∨ ∃ p, w = norm p := by
  intro batches
  induction batches with
  | nil =>
    intro acc out hout w hw
    exact Or.inl (by cases hout; exact hw)
  | cons b rest ih =>
    intro acc out hout w hw
    unfold batchLoopCuda at hout
    cases hfw : forward b with
    | none => rw [hfw] at hout; cases hout
    | some pooled =>
      rw [hfw] at hout
      rcases ih _ out hout w hw with hmem | hp
      · rcases List.mem_append.mp hmem with hmem | hmem
        · exact Or.inl hmem
        · rcases List.mem_map.mp hmem with ⟨p, -, hpw⟩
          exact Or.inr ⟨p, hpw.symm⟩
      · exact Or.inr hp

theorem cuda_result_ok_mem {Vec : Type} (norm : Vec → Vec)
    (forward : List Str → Option (List Vec)) :
    ∀ (depth : Nat) (texts : List Str) (bs : Nat) (out : List Vec),
      (generate_embeddings_batch_cuda norm forward depth texts bs).2 = .ok out →
      ∀ w ∈ out, ∃ p, w = norm p := by
  intro depth
  induction depth with
  | zero => intro texts bs out hout; cases hout
  | succ n ih =>
    intro texts bs out hout w hw
    unfold generate_embeddings_batch_cuda at hout
    by_cases hbs : bs = 0
    · rw [if_pos hbs] at hout; cases hout
    · rw [if_neg hbs] at hout
      cases hloop : batchLoopCuda norm forward (chunksOf bs texts) [] with
      | none =>
        rw [hloop] at hout
        exact ih texts _ out hout w hw
      | some embs =>
        rw [hloop] at hout
        have hembs : embs = out := Except.ok.inj hout
        subst hembs
        rcases batchLoopCuda_ok_mem norm forward (chunksOf bs texts) [] embs hloop
            w hw with hmem | hp
        · cases hmem
        · exact hp

/-- C2: the returned embedding has unit L2 norm whenever the pooled vector
has any nonzero coordinate; the all-zero vector is the unique exception
and is returned unnormalized (never divided by its zero norm);
`generate_embedding` returns exactly the normalized pooled vector; and
every vector returned by either batch path of
`generate_embeddings_batch` is the `normalizeEmbedding` image of a pooled
vector. -/
theorem embedding_unit_norm (v : List ℝ) :
    ((∃ x ∈ v, x ≠ 0) → l2norm (normalizeEmbedding v) = 1) ∧
      ((∀ x ∈ v, x = 0) → normalizeEmbedding v = v) ∧
      (∀ (d0 : PyDevice) (pooled : List ℝ),
        (generate_embedding d0 (.ok pooled)).2 = .ok (normalizeEmbedding pooled)) ∧
      (∀ (forwardB : List Str → Except Str (List (List ℝ))) (d0 : PyDevice)
          (texts : List Str) (bs : Nat) (out : List (List ℝ)),
        (generate_embeddings_batch_cpu normalizeEmbedding forwardB d0 texts bs).2 =
            .ok out →
        ∀ w ∈ out, ∃ p, w = normalizeEmbedding p) ∧
      (∀ (forward : List Str → Option (List (List ℝ))) (depth : Nat)
          (texts : List Str) (bs : Nat) (out : List (List ℝ)),
        (generate_embeddings_batch_cuda normalizeEmbedding forward depth texts bs).2 =
            .ok out →
        ∀ w ∈ out, ∃ p, w = normalizeEmbedding p) := by
  refine ⟨?_, ?_, fun d0 pooled => rfl, ?_, ?_⟩
  · intro h
    have hS : 0 < l2normSq v := l2normSq_pos v h
    have hn : 0 < l2norm v := Real.sqrt_pos.mpr hS
    unfold normalizeEmbedding
    rw [if_pos hn]
    unfold l2norm
    rw [l2normSq_map_div]
    rw [Real.mul_self_sqrt (le_of_lt hS)]
    rw [div_self (ne_of_gt hS)]
    exact Real.sqrt_one
  · intro h
    have hS : l2normSq v = 0 := l2normSq_zero v h
    unfold normalizeEmbedding
    rw [if_neg]
    unfold l2norm
    rw [hS, Real.sqrt_zero]
    exact lt_irrefl 0
  · intro forwardB d0 texts bs out hout w hw
    rcases batchLoopCpu_ok_mem normalizeEmbedding forwardB (chunksOf bs texts)
        d0 [] out hout w hw with hmem | hp
    · cases hmem
    · exact hp
  · intro forward depth texts bs out hout w hw
    exact cuda_result_ok_mem normalizeEmbedding forward depth texts bs out hout w hw

/-- Witness for C2: the pooled vector `[3, 4]` normalizes to unit norm. -/
theorem embedding_unit_norm_witness :
    (∃ x ∈ ([3, 4] : List ℝ), x ≠ 0) ∧
      l2norm (normalizeEmbedding [3, 4]) = 1 := by
  have hx : ∃ x ∈ ([3, 4] : List ℝ), x ≠ 0 :=
    ⟨3, by simp, by norm_num⟩
  exact ⟨hx, (embedding_unit_norm [3, 4]).1 hx⟩

/-! ## Query answering (`QwenService.process_search_query`,
qwen_service.py 460-601): deduplicate retrieved chunks by parent document
keeping the maximum similarity, then filter by the 0.90 high-confidence
threshold, else keep only the single best document. -/

/-- One retrieved chunk row as returned by `RAGService.search_for_qwen`. -/
structure ChunkRow where
  document_id : Nat
  document_title : Str
  document_type : Str
  document_path : Option Str
  text : Str
  similarity : ℚ
deriving DecidableEq

/-- One entry of the `documents` list built by `process_search_query`. -/
structure DocInfo where
  document_id : Nat
  title : Str
  type : Str
  path : Option Str
  available : Bool
  similarity : Rat
deriving DecidableEq

/-- Stable insertion for descending sort by similarity (chunks). -/
def insertChunkDesc (c : ChunkRow) : List ChunkRow → List ChunkRow
  | [] => [c]
  | e :: es =>
    if e.similarity ≤ c.similarity then c :: e :: es else e :: insertChunkDesc c es

/-- `sorted(chunks, key=similarity, reverse=True)` (stable). -/
def sortChunksDesc (l : List ChunkRow) : List ChunkRow := l.foldr insertChunkDesc []

/-- Stable insertion for descending sort by similarity (documents). -/
def insertDocDesc (d : DocInfo) : List DocInfo → List DocInfo
  | [] => [d]
  | e :: es =>
    if e.similarity ≤ d.similarity then d :: e :: es else e :: insertDocDesc d es

/-- `documents.sort(key=similarity, reverse=True)` (stable). -/
def sortDocsDesc (l : List DocInfo) : List DocInfo := l.foldr insertDocDesc []

/-- The `doc_info` dict built from a chunk (the Redis availability check is
the `redisHas` oracle). -/
def mkDocInfo (redisHas : Nat → Bool) (c : ChunkRow) : DocInfo :=
  ⟨c.document_id, c.document_title, c.document_type, c.document_path,
    redisHas c.document_id, c.similarity⟩

/-- The `seen_doc_ids[doc_id]["similarity"] = similarity` update: raise the
stored similarity of the already-collected document when the new chunk is
more similar. -/
def updateSim (id : Nat) (s : ℚ) (docs : List DocInfo) : List DocInfo :=
  docs.map (fun d =>
    if d.document_id = id ∧ d.similarity < s then { d with similarity := s } else d)

/-- The chunk loop of `process_search_query` (lines 528-561): first
occurrence of a document appends its `doc_info`; later occurrences only
update the stored similarity upwards. -/
def collectDocs (redisHas : Nat → Bool) : List DocInfo → List ChunkRow → List DocInfo
  | acc, [] => acc
  | acc, c :: rest =>
    if acc.any (fun d => d.document_id == c.document_id) then
      collectDocs redisHas (updateSim c.document_id c.similarity acc) rest
    else
      collectDocs redisHas (acc ++ [mkDocInfo redisHas c]) rest

/-- The high-confidence similarity threshold, 0.90 (line 575). -/
def highThreshold : ℚ := mkRat 9 10

/-- The deduplicated documents, sorted by similarity descending. -/
def dedupedDocuments (redisHas : Nat → Bool) (chunks : List ChunkRow) : List DocInfo :=
  sortDocsDesc (collectDocs redisHas [] (sortChunksDesc chunks))

/-- The final filter (lines 573-584): all documents with similarity at
least 0.90 when any exists, otherwise only the single best document. -/
def filterDocuments (documents : List DocInfo) : List DocInfo :=
  if documents.filter (fun d => highThreshold ≤ d.similarity) ≠ [] then
    documents.filter (fun d => highThreshold ≤ d.similarity)
  else documents.take 1

/-- The documents surfaced to the caller for a set of retrieved chunks. -/
def searchDocuments (redisHas : Nat → Bool) (chunks : List ChunkRow) : List DocInfo :=
  filterDocuments (dedupedDocuments redisHas chunks)

/-- The value returned by `process_search_query`. -/
structure SearchResult where
  answer : Str
  documents : List DocInfo
  chunks : List ChunkRow
deriving DecidableEq

/-- `QwenService.process_search_query`: empty retrieval returns the fixed
no-documents answer; otherwise the answer generation call is made with no
timeout wrapper — its result is used whatever its duration — and a raised
generation exception reaches the outer handler, which returns an error
message with no documents. -/
def process_search_query (chunks : List ChunkRow) (gen : Generation)
    (redisHas : Nat → Bool) : SearchResult :=
  if chunks = [] then ⟨"Не найдено релевантных документов.".toList, [], []⟩
  else
    match gen.result with
    | .error e => ⟨"Ошибка при обработке запроса: ".toList ++ e, [], []⟩
    | .ok answer => ⟨answer, searchDocuments redisHas chunks, chunks⟩

/-! ## Properties of the deduplication and filtering pipeline -/

theorem mem_insertChunkDesc (c a : ChunkRow) :
    ∀ l, a ∈ insertChunkDesc c l ↔ a = c ∨ a ∈ l := by
  intro l
  induction l with
  | nil => simp [insertChunkDesc]
  | cons e es ih =>
    unfold insertChunkDesc
    split
    · simp
    · rw [List.mem_cons, ih, List.mem_cons]
      tauto

theorem mem_sortChunksDesc (a : ChunkRow) :
    ∀ l, a ∈ sortChunksDesc l ↔ a ∈ l := by
  intro l
  induction l with
  | nil => simp [sortChunksDesc]
  | cons e es ih =>
    unfold sortChunksDesc at ih ⊢
    rw [List.foldr_cons, mem_insertChunkDesc, ih, List.mem_cons]

theorem mem_insertDocDesc (c a : DocInfo) :
    ∀ l, a ∈ insertDocDesc c l ↔ a = c ∨ a ∈ l := by
  intro l
  induction l with
  | nil => simp [insertDocDesc]
  | cons e es ih =>
    unfold insertDocDesc
    split
    · simp
    · rw [List.mem_cons, ih, List.mem_cons]
      tauto

theorem mem_sortDocsDesc (a : DocInfo) :
    ∀ l, a ∈ sortDocsDesc l ↔ a ∈ l := by
  intro l
  induction l with
  | nil => simp [sortDocsDesc]
  | cons e es ih =>
    unfold sortDocsDesc at ih ⊢
    rw [List.foldr_cons, mem_insertDocDesc, ih, List.mem_cons]

theorem pairwise_insertDocDesc (c : DocInfo) :
    ∀ l, List.Pairwise (fun a b => b.similarity ≤ a.similarity) l →
      List.Pairwise (fun a b => b.similarity ≤ a.similarity) (insertDocDesc c l) := by
  intro l
  induction l with
  | nil => intro _; simp [insertDocDesc]
  | cons e es ih =>
    intro h
    rw [List.pairwise_cons] at h
    unfold insertDocDesc
    split
    · rename_i hle
      rw [List.pairwise_cons]
      refine ⟨?_, List.pairwise_cons.mpr h⟩
      intro b hb
      rw [List.mem_cons] at hb
      rcases hb with rfl | hb
      · exact hle
      · exact le_trans (h.1 b hb) hle
    · rename_i hgt
      push_neg at hgt
      rw [List.pairwise_cons]
      refine ⟨?_, ih h.2⟩
      intro b hb
      rw [mem_insertDocDesc] at hb
      rcases hb with rfl | hb
      · exact le_of_lt hgt
      · exact h.1 b hb

theorem pairwise_sortDocsDesc :
    ∀ l, List.Pairwise (fun a b => b.similarity ≤ a.similarity) (sortDocsDesc l) := by
  intro l
  induction l with
  | nil => simp [sortDocsDesc]
  | cons e es ih =>
    unfold sortDocsDesc at ih ⊢
    rw [List.foldr_cons]
    exact pairwise_insertDocDesc e _ ih

theorem updateSim_ids (id : Nat) (s : ℚ) (acc : List DocInfo) :
    (updateSim id s acc).map DocInfo.document_id = acc.map DocInfo.document_id := by
  unfold updateSim
  rw [List.map_map]
  apply List.map_congr_left
  intro a _
  by_cases hc : a.document_id = id ∧ a.similarity < s
  · simp [hc]
  · simp [hc]

theorem mem_updateSim_src (id : Nat) (s : ℚ) (acc : List DocInfo) (b : DocInfo)
    (h : b ∈ updateSim id s acc) :
    b ∈ acc ∨ (b.document_id = id ∧ b.similarity = s) := by
  unfold updateSim at h
  rw [List.mem_map] at h
  rcases h with ⟨a, ha, heq⟩
  by_cases hc : a.document_id = id ∧ a.similarity < s
  · rw [if_pos hc] at heq
    subst heq
    exact Or.inr ⟨hc.1, rfl⟩
  · rw [if_neg hc] at heq
    subst heq
    exact Or.inl ha

theorem updateSim_mono (id : Nat) (s : ℚ) (acc : List DocInfo) (a : DocInfo)
    (ha : a ∈ acc) :
    ∃ b ∈ updateSim id s acc,
      b.document_id = a.document_id ∧ a.similarity ≤ b.similarity := by
  unfold updateSim
  by_cases hc : a.document_id = id ∧ a.similarity < s
  · exact ⟨{ a with similarity := s }, List.mem_map.mpr ⟨a, ha, by rw [if_pos hc]⟩,
      rfl, le_of_lt hc.2⟩
  · exact ⟨a, List.mem_map.mpr ⟨a, ha, by rw [if_neg hc]⟩, rfl, le_refl _⟩

theorem updateSim_hit (id : Nat) (s : ℚ) (acc : List DocInfo)
    (h : ∃ a ∈ acc, a.document_id = id) :
    ∃ b ∈ updateSim id s acc, b.document_id = id ∧ s ≤ b.similarity := by
  rcases h with ⟨a, ha, hid⟩
  unfold updateSim
  by_cases hc : a.document_id = id ∧ a.similarity < s
  · exact ⟨{ a with similarity := s }, List.mem_map.mpr ⟨a, ha, by rw [if_pos hc]⟩,
      hid, le_refl s⟩
  · have hns : ¬a.similarity < s := fun hlt => hc ⟨hid, hlt⟩
    exact ⟨a, List.mem_map.mpr ⟨a, ha, by rw [if_neg hc]⟩, hid, le_of_not_lt hns⟩

theorem collect_nodup_ids (r : Nat → Bool) :
    ∀ (l : List ChunkRow) (acc : List DocInfo),
      (acc.map DocInfo.document_id).Nodup →
      ((collectDocs r acc l).map DocInfo.document_id).Nodup := by
  intro l
  induction l with
  | nil => intro acc h; exact h
  | cons c rest ih =>
    intro acc h
    simp only [collectDocs]
    by_cases hany : acc.any (fun d => d.document_id == c.document_id) = true
    · rw [if_pos hany]
      exact ih _ (by rw [updateSim_ids]; exact h)
    · rw [if_neg hany]
      apply ih
      rw [List.map_append, List.nodup_append]
      refine ⟨h, by simp, ?_⟩
      intro x hx hy
      simp only [List.map_cons, List.map_nil, List.mem_singleton] at hy
      rcases List.mem_map.mp hx with ⟨a, ha, hax⟩
      apply hany
      rw [List.any_eq_true]
      refine ⟨a, ha, ?_⟩
      rw [beq_iff_eq, hax, hy]
      rfl

theorem collect_bound_acc (r : Nat → Bool) :
    ∀ (l : List ChunkRow) (acc : List DocInfo) (a : DocInfo),
      (acc.map DocInfo.document_id).Nodup → a ∈ acc →
      ∀ d ∈ collectDocs r acc l, d.document_id = a.document_id →
        a.similarity ≤ d.similarity := by
  intro l
  induction l with
  | nil =>
    intro acc a hnd ha d hd hid
    simp only [collectDocs] at hd
    have : d = a := List.inj_on_of_nodup_map hnd hd ha hid
    rw [this]
  | cons c rest ih =>
    intro acc a hnd ha d hd hid
    simp only [collectDocs] at hd
    by_cases hany : acc.any (fun d => d.document_id == c.document_id) = true
    · rw [if_pos hany] at hd
      rcases updateSim_mono c.document_id c.similarity acc a ha with ⟨b, hb, hbid, hble⟩
      have hnd' : ((updateSim c.document_id c.similarity acc).map DocInfo.document_id).Nodup := by
        rw [updateSim_ids]; exact hnd
      exact le_trans hble (ih _ b hnd' hb d hd (hid.trans hbid.symm))
    · rw [if_neg hany] at hd
      have hnd' : ((acc ++ [mkDocInfo r c]).map DocInfo.document_id).Nodup := by
        rw [List.map_append, List.nodup_append]
        refine ⟨hnd, by simp, ?_⟩
        intro x hx hy
        simp only [List.map_cons, List.map_nil, List.mem_singleton] at hy
        rcases List.mem_map.mp hx with ⟨b, hb, hbx⟩
        apply hany
        rw [List.any_eq_true]
        exact ⟨b, hb, by rw [beq_iff_eq, hbx, hy]; rfl⟩
      exact ih _ a hnd' (List.mem_append_left _ ha) d hd hid

theorem collect_bound_chunk (r : Nat → Bool) :
    ∀ (l : List ChunkRow) (acc : List DocInfo),
      (acc.map DocInfo.document_id).Nodup →
      ∀ c ∈ l, ∀ d ∈ collectDocs r acc l, d.document_id = c.document_id →
        c.similarity ≤ d.similarity := by
  intro l
  induction l with
  | nil => intro acc _ c hc; cases hc
  | cons c0 rest ih =>
    intro acc hnd c hc d hd hdid
    rw [List.mem_cons] at hc
    simp only [collectDocs] at hd
    by_cases hany : acc.any (fun d => d.document_id == c0.document_id) = true
    · rw [if_pos hany] at hd
      have hnd' : ((updateSim c0.document_id c0.similarity acc).map DocInfo.document_id).Nodup := by
        rw [updateSim_ids]; exact hnd
      rcases hc with rfl | hc
      · have hex : ∃ a ∈ acc, a.document_id = c.document_id := by
          rw [List.any_eq_true] at hany
          rcases hany with ⟨x, hx, hbeq⟩
          exact ⟨x, hx, by rwa [beq_iff_eq] at hbeq⟩
        rcases updateSim_hit c.document_id c.similarity acc hex with ⟨b, hb, hbid, hsle⟩
        exact le_trans hsle (collect_bound_acc r rest _ b hnd' hb d hd (hdid.trans hbid.symm))
      · exact ih _ hnd' c hc d hd hdid
    · rw [if_neg hany] at hd
      have hnd' : ((acc ++ [mkDocInfo r c0]).map DocInfo.document_id).Nodup := by
        rw [List.map_append, List.nodup_append]
        refine ⟨hnd, by simp, ?_⟩
        intro x hx hy
        simp only [List.map_cons, List.map_nil, List.mem_singleton] at hy
        rcases List.mem_map.mp hx with ⟨b, hb, hbx⟩
        apply hany
        rw [List.any_eq_true]
        exact ⟨b, hb, by rw [beq_iff_eq, hbx, hy]; rfl⟩
      rcases hc with rfl | hc
      · have hmk : mkDocInfo r c ∈ acc ++ [mkDocInfo r c] := by simp
        exact collect_bound_acc r rest _ (mkDocInfo r c) hnd' hmk d hd hdid
      · exact ih _ hnd' c hc d hd hdid

theorem collect_origin (r : Nat → Bool) :
    ∀ (l : List ChunkRow) (acc : List DocInfo),
      ∀ d ∈ collectDocs r acc l,
        (∃ a ∈ acc, a.document_id = d.document_id ∧ a.similarity = d.similarity) ∨
        (∃ c ∈ l, c.document_id = d.document_id ∧ c.similarity = d.similarity) := by
  intro l
  induction l with
  | nil =>
    intro acc d hd
    simp only [collectDocs] at hd
    exact Or.inl ⟨d, hd, rfl, rfl⟩
  | cons c0 rest ih =>
    intro acc d hd
    simp only [collectDocs] at hd
    by_cases hany : acc.any (fun d => d.document_id == c0.document_id) = true
    · rw [if_pos hany] at hd
      rcases ih _ d hd with ⟨b, hb, hbid, hbs⟩ | ⟨c, hc, hcid, hcs⟩
      · rcases mem_updateSim_src c0.document_id c0.similarity acc b hb with hbacc | ⟨hid0, hs0⟩
        · exact Or.inl ⟨b, hbacc, hbid, hbs⟩
        · exact Or.inr ⟨c0, List.mem_cons_self .., hid0 ▸ hbid, hs0 ▸ hbs⟩
      · exact Or.inr ⟨c, List.mem_cons_of_mem _ hc, hcid, hcs⟩
    · rw [if_neg hany] at hd
      rcases ih _ d hd with ⟨b, hb, hbid, hbs⟩ | ⟨c, hc, hcid, hcs⟩
      · rcases List.mem_append.mp hb with hb | hb
        · exact Or.inl ⟨b, hb, hbid, hbs⟩
        · rw [List.mem_singleton] at hb
          subst hb
          exact Or.inr ⟨c0, List.mem_cons_self .., hbid, hbs⟩
      · exact Or.inr ⟨c, List.mem_cons_of_mem _ hc, hcid, hcs⟩

theorem mem_filterDocuments (documents : List DocInfo) (d : DocInfo)
    (h : d ∈ filterDocuments documents) : d ∈ documents := by
  unfold filterDocuments at h
  split at h
  · exact (List.mem_filter.mp h).1
  · exact List.take_subset _ _ h

/-- C7: every document surfaced by `process_search_query` carries the
maximum similarity seen among its chunks; when any deduplicated document
reaches the 0.90 threshold, exactly the set of such documents is returned,
and otherwise exactly the single most similar document is returned. -/
theorem search_filter_high_confidence (redisHas : Nat → Bool) (chunks : List ChunkRow) :
    (∀ d ∈ searchDocuments redisHas chunks,
        (∃ c ∈ chunks, c.document_id = d.document_id ∧ c.similarity = d.similarity) ∧
          ∀ c ∈ chunks, c.document_id = d.document_id → c.similarity ≤ d.similarity) ∧
      ((∃ d ∈ dedupedDocuments redisHas chunks, highThreshold ≤ d.similarity) →
        ∀ d, d ∈ searchDocuments redisHas chunks ↔
          d ∈ dedupedDocuments redisHas chunks ∧ highThreshold ≤ d.similarity) ∧
      ((∀ d ∈ dedupedDocuments redisHas chunks, d.similarity < highThreshold) →
        searchDocuments redisHas chunks = (dedupedDocuments redisHas chunks).take 1 ∧
          ∀ d ∈ dedupedDocuments redisHas chunks,
            ∀ e ∈ searchDocuments redisHas chunks, d.similarity ≤ e.similarity) := by
  refine ⟨?_, ?_, ?_⟩
  · intro d hd
    have hded : d ∈ dedupedDocuments redisHas chunks := mem_filterDocuments _ d hd
    have hcol : d ∈ collectDocs redisHas [] (sortChunksDesc chunks) := by
      unfold dedupedDocuments at hded
      exact (mem_sortDocsDesc d _).mp hded
    constructor
    · rcases collect_origin redisHas (sortChunksDesc chunks) [] d hcol with
        ⟨a, ha, -⟩ | ⟨c, hc, hcid, hcs⟩
      · cases ha
      · exact ⟨c, (mem_sortChunksDesc c chunks).mp hc, hcid, hcs⟩
    · intro c hc hid
      exact collect_bound_chunk redisHas (sortChunksDesc chunks) [] (by simp)
        c ((mem_sortChunksDesc c chunks).mpr hc) d hcol hid.symm
  · rintro ⟨d0, hd0, hth⟩ d
    have hne : (dedupedDocuments redisHas chunks).filter
        (fun d => highThreshold ≤ d.similarity) ≠ [] :=
      List.ne_nil_of_mem (List.mem_filter.mpr ⟨hd0, by simpa using hth⟩)
    unfold searchDocuments filterDocuments
    rw [if_pos hne]
    rw [List.mem_filter]
    simp
  · intro hall
    have hfe : (dedupedDocuments redisHas chunks).filter
        (fun d => highThreshold ≤ d.similarity) = [] := by
      rw [List.filter_eq_nil_iff]
      intro a ha
      simpa using not_le.mpr (hall a ha)
    constructor
    · unfold searchDocuments filterDocuments
      rw [if_neg (fun hcon => hcon hfe)]
    · intro d hd e he
      have hres : searchDocuments redisHas chunks =
          (dedupedDocuments redisHas chunks).take 1 := by
        unfold searchDocuments filterDocuments
        rw [if_neg (fun hcon => hcon hfe)]
      rw [hres] at he
      have hp : List.Pairwise (fun a b => b.similarity ≤ a.similarity)
          (dedupedDocuments redisHas chunks) := pairwise_sortDocsDesc _
      rcases hds : dedupedDocuments redisHas chunks with _ | ⟨h0, t⟩
      · rw [hds] at he
        cases he
      · rw [hds] at he hd hp
        simp only [List.take_succ_cons, List.take_zero, List.mem_singleton] at he
        subst he
        rw [List.pairwise_cons] at hp
        rw [List.mem_cons] at hd
        rcases hd with rfl | hd
        · exact le_refl _
        · exact hp.1 d hd

/-- Witness for C7 — the spec scenario: one stored document at similarity
0.95 and two at 0.4; only the 0.95 document is surfaced. -/
theorem search_filter_high_confidence_witness :
    (∃ d ∈ dedupedDocuments (fun _ => false)
        [⟨1, "d1".toList, "contract".toList, none, "t1".toList, mkRat 95 100⟩,
          ⟨2, "d2".toList, "scan".toList, none, "t2".toList, mkRat 2 5⟩,
          ⟨3, "d3".toList, "scan".toList, none, "t3".toList, mkRat 2 5⟩],
      highThreshold ≤ d.similarity) ∧
      (∀ d, d ∈ searchDocuments (fun _ => false)
          [⟨1, "d1".toList, "contract".toList, none, "t1".toList, mkRat 95 100⟩,
            ⟨2, "d2".toList, "scan".toList, none, "t2".toList, mkRat 2 5⟩,
            ⟨3, "d3".toList, "scan".toList, none, "t3".toList, mkRat 2 5⟩] ↔
        d ∈ dedupedDocuments (fun _ => false)
            [⟨1, "d1".toList, "contract".toList, none, "t1".toList, mkRat 95 100⟩,
              ⟨2, "d2".toList, "scan".toList, none, "t2".toList, mkRat 2 5⟩,
              ⟨3, "d3".toList, "scan".toList, none, "t3".toList, mkRat 2 5⟩] ∧
          highThreshold ≤ d.similarity) ∧
      searchDocuments (fun _ => false)
          [⟨1, "d1".toList, "contract".toList, none, "t1".toList, mkRat 95 100⟩,
            ⟨2, "d2".toList, "scan".toList, none, "t2".toList, mkRat 2 5⟩,
            ⟨3, "d3".toList, "scan".toList, none, "t3".toList, mkRat 2 5⟩] =
        [⟨1, "d1".toList, "contract".toList, none, false, mkRat 95 100⟩] := by
  refine ⟨by decide, ?_, by decide⟩
  exact (search_filter_high_confidence (fun _ => false) _).2.1 (by decide)

/-- C8 (amended): the classification generation call is bounded by a
60-second `asyncio.wait_for` timeout and falls back to the keyword
classifier on timeout; the query-answering generation call is wrapped in
no timeout at all — its result is awaited and used whatever its duration —
and when generation raises, the caller returns an error-message answer
with no documents (not a summary of how many documents were found). -/
theorem generation_timeout_policy :
    (∀ (m : Metrics) (gen : Generation) (parse : Str → ParseOutcome),
      (60 : ℚ) < gen.duration →
      classify_metrics_from_rag none gen parse m =
        { classification := fallback_classify m.text m.filename
          processed := false
          error := some ("Generation timeout".toList)
          chunks_count := some m.chunks_count
          text_length := some m.text_length }) ∧
      (∀ (chunks : List ChunkRow) (gen : Generation) (r : Nat → Bool) (a : Str),
        gen.result = .ok a → chunks ≠ [] →
        process_search_query chunks gen r = ⟨a, searchDocuments r chunks, chunks⟩) ∧
      (∀ (chunks : List ChunkRow) (gen : Generation) (r : Nat → Bool) (e : Str),
        gen.result = .error e → chunks ≠ [] →
        process_search_query chunks gen r =
          ⟨"Ошибка при обработке запроса: ".toList ++ e, [], []⟩) := by
  refine ⟨?_, ?_, ?_⟩
  · intro m gen parse ht
    simp [classify_metrics_from_rag, ht]
  · intro chunks gen r a hok hne
    unfold process_search_query
    rw [if_neg hne, hok]
  · intro chunks gen r e herr hne
    unfold process_search_query
    rw [if_neg hne, herr]

/-- Witness for C8 (amended): a 100-second classification generation is
cut off and replaced by the fallback; a 100-second query-answering
generation is not cut off — its text is the returned answer. -/
theorem generation_timeout_policy_witness :
    classify_metrics_from_rag none ⟨100, .ok ("x".toList)⟩ (fun _ => .noMatch)
        ⟨[], [], 0, 0⟩ =
      { classification := fallback_classify [] []
        processed := false
        error := some ("Generation timeout".toList)
        chunks_count := some 0
        text_length := some 0 } ∧
      process_search_query
          [⟨1, "d".toList, "contract".toList, none, "t".toList, mkRat 1 2⟩]
          ⟨100, .ok ("model answer".toList)⟩ (fun _ => false) =
        ⟨"model answer".toList,
          searchDocuments (fun _ => false)
            [⟨1, "d".toList, "contract".toList, none, "t".toList, mkRat 1 2⟩],
          [⟨1, "d".toList, "contract".toList, none, "t".toList, mkRat 1 2⟩]⟩ :=
  ⟨generation_timeout_policy.1 ⟨[], [], 0, 0⟩ ⟨100, .ok ("x".toList)⟩
      (fun _ => .noMatch) (by decide),
    generation_timeout_policy.2.1 _ ⟨100, .ok ("model answer".toList)⟩
      (fun _ => false) ("model answer".toList) rfl (by decide)⟩

/-- C8 counterexample: a query-answering generation running 1,000,000
seconds is not bounded by any timeout — its output is returned as the
answer, not a fallback — and when generation fails, the answer is the
error template, not a templated summary of how many documents were
found. -/
theorem search_generation_unbounded_counterexample :
    (process_search_query
        [⟨1, "d".toList, "contract".toList, none, "t".toList, mkRat 1 2⟩]
        ⟨1000000, .ok ("model answer".toList)⟩ (fun _ => false)).answer =
      "model answer".toList ∧
      (process_search_query
          [⟨1, "d".toList, "contract".toList, none, "t".toList, mkRat 1 2⟩]
          ⟨10, .error ("X".toList)⟩ (fun _ => false)).answer =
        "Ошибка при обработке запроса: X".toList := by
  constructor
  · decide
  · decide

/-! ## Ingestion task (`ProcessDocumentRAGTask.run_async`, rag_tasks.py
44-171) and chunk persistence (`RAGService.save_metrics_to_postgres`,
`delete_document_chunks`, rag_service.py 291-365 / 542-558).  The chunk
store (the `document_chunks` table) and the parent document's
tags/summary columns are threaded state; embedding generation is an
oracle. -/

/-- A chunk dict with keys `text` / `start_pos` / `end_pos` (built both by
the task's inline chunker and by `process_document_for_metrics`). -/
structure TaskChunk where
  text : Str
  start_pos : Nat
  end_pos : Nat
deriving DecidableEq

/-- A persisted `DocumentChunk` row. -/
structure StoredChunk where
  document_id : Nat
  chunk_id : Nat
  text : Str
  start_pos : Nat
  end_pos : Nat
  embedding : List ℚ
deriving DecidableEq

/-- The mutable state touched by ingestion: the `document_chunks` table
and the parent document's tags/summary columns. -/
structure IngestState where
  chunks : List StoredChunk
  docTags : Option (List Str)
  docSummary : Option Str
deriving DecidableEq

/-- The dict returned by `run_async` (`none` models an absent key). -/
structure IngestOutcome where
  success : Bool
  error : Option Str
  chunks_created : Option Nat
  classification : Option Classification
deriving DecidableEq

/-- Python `range(0, stop, step)` (meaningful for `step ≥ 1`). -/
def rangeStepAux : Nat → Nat → Nat → Nat → List Nat
  | 0, _, _, _ => []
  | fuel + 1, i, stop, step =>
    if i < stop then i :: rangeStepAux fuel (i + step) stop step else []

/-- Python `range(0, stop, step)`. -/
def pyRangeStep (stop step : Nat) : List Nat := rangeStepAux (stop + 1) 0 stop step

/-- The task's inline chunker (rag_tasks.py 130-142): fixed windows of 500
characters at step `500 - 100 = 400`, keeping only chunks whose stripped
text exceeds 50 characters. -/
def inlineChunks (text : Str) : List TaskChunk :=
  (pyRangeStep text.length 400).filterMap (fun i =>
    let ct := pySlice text i (i + 500)
    if 50 < (pyStrip ct).length then some ⟨ct, i, min (i + 500) text.length⟩
    else none)

/-- The rows created by `save_metrics_to_postgres` for a chunk-dict list:
`chunk_id` is the enumeration index. -/
def storedChunks (embed : Str → List ℚ) (docId : Nat)
    (dicts : List TaskChunk) : List StoredChunk :=
  dicts.enum.map (fun p =>
    ⟨docId, p.1, p.2.text, p.2.start_pos, p.2.end_pos, embed p.2.text⟩)

/-- `RAGService.save_metrics_to_postgres`: appends the freshly embedded
chunk rows to the store (no deletion of prior rows); an empty chunk list
saves nothing. -/
def save_metrics_to_postgres (embed : Str → List ℚ) (docId : Nat)
    (st : IngestState) (dicts : List TaskChunk) : IngestState :=
  if dicts = [] then st
  else { st with chunks := st.chunks ++ storedChunks embed docId dicts }

/-- `RAGService.delete_document_chunks`: delete all rows of one document. -/
def delete_document_chunks (st : IngestState) (docId : Nat) : IngestState :=
  { st with chunks := st.chunks.filter (fun c => c.document_id ≠ docId) }

/-- The chunk dicts that `process_document_for_metrics` builds from the
`DocumentProcessor.chunk_text` output (metrics `chunks` key). -/
def chunkDictsOf (text : Str) : List TaskChunk :=
  (chunk_text 500 100 text).map (fun c => ⟨c.text, c.start_pos, c.end_pos⟩)

/-- `ProcessDocumentRAGTask.run_async`: document lookup, the
minimum-ten-characters text gate, keyword classification
(`classify_document` delegates to `_fallback_classify`) committed to the
document row, then the inline chunker; a non-empty chunk list is handed to
`add_document_chunks`, which evaluates `chunk_data['chunk_id']` — a key
the task's dicts never carry — so it raises `KeyError('chunk_id')`, the
outer handler returns failure, and no chunk row is persisted. -/
def run_async (_embed : Str → List ℚ) (_docId : Nat) (st : IngestState)
    (docFound : Bool) (text title : Str) : IngestState × IngestOutcome :=
  if docFound then
    if text = [] ∨ (pyStrip text).length < 10 then
      (st, ⟨false, some ("No text content extracted".toList), none, none⟩)
    else
      let classification := fallback_classify (text.take 1000) title
      let st1 : IngestState :=
        { st with
          docTags := if classification.tags ≠ [] then some classification.tags
            else st.docTags
          docSummary := if classification.description ≠ [] then
            some classification.description else st.docSummary }
      let cs := inlineChunks text
      if cs = [] then (st1, ⟨true, none, some 0, some classification⟩)
      else (st1, ⟨false, some ("KeyError: chunk_id".toList), none, none⟩)
  else (st, ⟨false, some ("Document not found".toList), none, none⟩)

/-- C10: extracted text shorter than ten characters after stripping makes
the task return `success = False` with error "No text content extracted",
before classification — the store and the document row are unchanged and
no chunk is persisted. -/
theorem ingest_short_text_rejected (embed : Str → List ℚ) (docId : Nat)
    (st : IngestState) (text title : Str)
    (h : (pyStrip text).length < 10) :
    run_async embed docId st true text title =
      (st, ⟨false, some ("No text content extracted".toList), none, none⟩) := by
  unfold run_async
  rw [if_pos rfl, if_pos (Or.inr h)]

/-- Witness for C10: a five-character text is rejected untouched. -/
theorem ingest_short_text_rejected_witness :
    run_async (fun _ => []) 7 ⟨[], none, none⟩ true ("short".toList) ("t.txt".toList) =
      (⟨[], none, none⟩,
        ⟨false, some ("No text content extracted".toList), none, none⟩) :=
  ingest_short_text_rejected (fun _ => []) 7 ⟨[], none, none⟩ ("short".toList)
    ("t.txt".toList) (by decide)

/-- C4 (amended): ingestion never performs delete-then-recreate.  The
Celery task path persists no chunks at all — with a non-empty inline chunk
list, `add_document_chunks` raises `KeyError('chunk_id')` and the run
fails with the store unchanged.  The persisting path
(`save_metrics_to_postgres`, used by the upload fallback and the reprocess
script) appends the freshly embedded rows without deleting prior ones, so
a re-run leaves two copies.  Full deletion of a document's chunks exists
only in `delete_document_chunks` (invoked on permanent document deletion),
which removes exactly that document's rows; deleting first and then
persisting yields exactly one copy. -/
theorem ingest_rerun_append_delete (embed : Str → List ℚ) (docId : Nat)
    (st : IngestState) (text title : Str) (dicts : List TaskChunk) :
    (¬(text = [] ∨ (pyStrip text).length < 10) → inlineChunks text ≠ [] →
      (run_async embed docId st true text title).1.chunks = st.chunks ∧
        (run_async embed docId st true text title).2.success = false) ∧
      (dicts ≠ [] →
        (save_metrics_to_postgres embed docId st dicts).chunks =
            st.chunks ++ storedChunks embed docId dicts ∧
          (save_metrics_to_postgres embed docId
              (save_metrics_to_postgres embed docId st dicts) dicts).chunks =
            st.chunks ++ storedChunks embed docId dicts ++
              storedChunks embed docId dicts) ∧
      ((∀ c ∈ (delete_document_chunks st docId).chunks, c.document_id ≠ docId) ∧
        ∀ c ∈ st.chunks, c.document_id ≠ docId →
          c ∈ (delete_document_chunks st docId).chunks) ∧
      (dicts ≠ [] →
        (save_metrics_to_postgres embed docId
            (delete_document_chunks st docId) dicts).chunks.filter
          (fun c => c.document_id = docId) = storedChunks embed docId dicts) := by
  refine ⟨?_, ?_, ⟨?_, ?_⟩, ?_⟩
  · intro hshort hcs
    constructor <;> simp [run_async, hshort, hcs]
  · intro hne
    constructor
    · simp [save_metrics_to_postgres, hne]
    · simp [save_metrics_to_postgres, hne]
  · intro c hcmem
    unfold delete_document_chunks at hcmem
    have := List.mem_filter.mp hcmem
    simpa using this.2
  · intro c hcmem hcid
    unfold delete_document_chunks
    exact List.mem_filter.mpr ⟨hcmem, by simpa using hcid⟩
  · intro hne
    unfold save_metrics_to_postgres
    rw [if_neg hne]
    show ((delete_document_chunks st docId).chunks ++
        storedChunks embed docId dicts).filter _ = _
    rw [List.filter_append]
    have h1 : (delete_document_chunks st docId).chunks.filter
        (fun c => decide (c.document_id = docId)) = [] := by
      rw [List.filter_eq_nil_iff]
      intro c hcmem
      unfold delete_document_chunks at hcmem
      have := (List.mem_filter.mp hcmem).2
      simp at this ⊢
      exact this
    have h2 : (storedChunks embed docId dicts).filter
        (fun c => decide (c.document_id = docId)) = storedChunks embed docId dicts := by
      rw [List.filter_eq_self]
      intro c hcmem
      unfold storedChunks at hcmem
      rcases List.mem_map.mp hcmem with ⟨p, _, hpc⟩
      subst hpc
      simp
    rw [h1, h2, List.nil_append]

/-- Witness for C4 (amended): on a 51-character text the failing task run
leaves the store empty, and re-running the persisting path appends a
second copy of the single chunk row. -/
theorem ingest_rerun_append_delete_witness :
    ((run_async (fun _ => []) 7 ⟨[], none, none⟩ true (List.replicate 51 'a')
          ("t.txt".toList)).1.chunks = [] ∧
        (run_async (fun _ => []) 7 ⟨[], none, none⟩ true (List.replicate 51 'a')
            ("t.txt".toList)).2.success = false) ∧
      (save_metrics_to_postgres (fun _ => []) 7
          (save_metrics_to_postgres (fun _ => []) 7 ⟨[], none, none⟩
            [⟨List.replicate 51 'a', 0, 500⟩])
          [⟨List.replicate 51 'a', 0, 500⟩]).chunks =
        [] ++ storedChunks (fun _ => []) 7 [⟨List.replicate 51 'a', 0, 500⟩] ++
          storedChunks (fun _ => []) 7 [⟨List.replicate 51 'a', 0, 500⟩] :=
  ⟨(ingest_rerun_append_delete (fun _ => []) 7 ⟨[], none, none⟩
        (List.replicate 51 'a') ("t.txt".toList) []).1
      (by decide) (by decide),
    ((ingest_rerun_append_delete (fun _ => []) 7 ⟨[], none, none⟩
          [] [] [⟨List.replicate 51 'a', 0, 500⟩]).2.1
        (by decide)).2⟩

/-- C4 counterexample: on a 51-character text the chunker produces exactly
one chunk, yet the ingestion task persists zero chunks and fails
(`add_document_chunks` raises `KeyError('chunk_id')`), and two runs of the
persisting path leave two identical copies of the chunk row — the second
run's chunk set does not replace the first and the stored count is not
the chunker's count. -/
theorem ingest_not_idempotent_counterexample :
    chunk_text 500 100 (List.replicate 51 'a') =
        [⟨List.replicate 51 'a', 0, 500, 0⟩] ∧
      (run_async (fun _ => []) 7 ⟨[], none, none⟩ true (List.replicate 51 'a')
          ("t.txt".toList)).1.chunks = [] ∧
      (run_async (fun _ => []) 7 ⟨[], none, none⟩ true (List.replicate 51 'a')
          ("t.txt".toList)).2.success = false ∧
      (save_metrics_to_postgres (fun _ => []) 7
          (save_metrics_to_postgres (fun _ => []) 7 ⟨[], none, none⟩
            (chunkDictsOf (List.replicate 51 'a')))
          (chunkDictsOf (List.replicate 51 'a'))).chunks.length = 2 ∧
      ¬ (save_metrics_to_postgres (fun _ => []) 7
          (save_metrics_to_postgres (fun _ => []) 7 ⟨[], none, none⟩
            (chunkDictsOf (List.replicate 51 'a')))
          (chunkDictsOf (List.replicate 51 'a'))).chunks.Nodup := by
  have h1 : chunkLoopF (List.replicate 51 'a') 500 100 52 0 [] =
      some [⟨List.replicate 51 'a', 0, 500, 0⟩] := by decide
  have hc := chunkLoopF_correct (List.replicate 51 'a') 500 100 52 0 [] (by decide)
  have hct : chunk_text 500 100 (List.replicate 51 'a') =
      [⟨List.replicate 51 'a', 0, 500, 0⟩] := by
    unfold chunk_text
    rw [if_neg (by decide)]
    exact Option.some.inj (hc.symm.trans h1)
  have hdicts : chunkDictsOf (List.replicate 51 'a') =
      [⟨List.replicate 51 'a', 0, 500⟩] := by
    unfold chunkDictsOf
    rw [hct]
    rfl
  refine ⟨hct, by decide, by decide, ?_, ?_⟩
  · rw [hdicts]
    decide
  · rw [hdicts]
    decide
